import Mathlib

/-!
Verification development for the movie data-lake repository: a shallow
embedding of its ingestion ledger (src/ingestion) and of its
reconciliation and normalization engine (src/etl), together with theorems
settling the specified properties.

Text is modelled as a list of characters.  Python / pandas floats are
modelled as rationals; where IEEE special values matter (the pandas
division used for the derived revenue metric) an explicit float type with
infinities and NaN is used.  Nullable values are `Option`.
-/

set_option allowUnsafeReducibility true
attribute [local semireducible] Rat.mul Rat.inv Rat.add Rat.sub Rat.ofScientific

namespace Cine

/-- Text: a Python string modelled as its list of characters. -/
abbrev Txt := List Char

/-- ASCII digit test, as used by the regexes `\d` and by `str.isdigit`
in the sources (ASCII fragment). -/
def isDigitCh (c : Char) : Bool := 48 ≤ c.toNat && c.toNat ≤ 57

/-- ASCII whitespace recognized by Python `str.strip`. -/
def isSpaceCh (c : Char) : Bool :=
  c.toNat == 32 || c.toNat == 9 || c.toNat == 10 || c.toNat == 13 ||
  c.toNat == 11 || c.toNat == 12

/-- Python `str.strip`: drop whitespace from both ends. -/
def trim (s : Txt) : Txt :=
  ((s.dropWhile isSpaceCh).reverse.dropWhile isSpaceCh).reverse

/-- Numeric value of an ASCII digit character. -/
def digitVal (c : Char) : ℕ := c.toNat - 48

/-- Accumulator form of reading a digit string left to right. -/
def digitsToNatAux (acc : ℕ) : Txt → ℕ
  | [] => acc
  | c :: cs => digitsToNatAux (10 * acc + digitVal c) cs

/-- The natural number denoted by a string of ASCII digits. -/
def digitsToNat (s : Txt) : ℕ := digitsToNatAux 0 s

/-- Value of a fractional digit block `f` read after a decimal point. -/
def fracVal (f : Txt) : ℚ := (digitsToNat f : ℚ) / (10 : ℚ) ^ f.length

/-- The body of a decimal literal after an optional sign: digits with an
optional decimal point, at least one digit in total, nothing after.
Returns the integer-part digits and the fractional-part digits.
This is the shape accepted by Python `float()` on finite decimal input
(exponents and the `inf`/`nan` tokens are outside this model). -/
def decBody (s : Txt) : Option (Txt × Txt) :=
  match s.dropWhile isDigitCh with
  | [] =>
    if s.takeWhile isDigitCh = [] then none
    else some (s.takeWhile isDigitCh, [])
  | '.' :: r2 =>
    if r2.dropWhile isDigitCh = [] then
      (if s.takeWhile isDigitCh = [] ∧ r2.takeWhile isDigitCh = [] then none
       else some (s.takeWhile isDigitCh, r2.takeWhile isDigitCh))
    else none
  | _ => none

/-- Split a decimal literal into (negative?, integer digits, fraction digits). -/
def decSplit (s : Txt) : Option (Bool × Txt × Txt) :=
  match s with
  | '-' :: rest => (decBody rest).map (fun p => (true, p.1, p.2))
  | '+' :: rest => (decBody rest).map (fun p => (false, p.1, p.2))
  | _ => (decBody s).map (fun p => (false, p.1, p.2))

/-- The rational denoted by sign and digit blocks. -/
def decValue (b : Bool) (d f : Txt) : ℚ :=
  let m : ℚ := (digitsToNat d : ℚ) + fracVal f
  if b then -m else m

/-- Python `float()` on a finite decimal literal; `none` when the text is
not such a literal (`float` raises `ValueError` there). -/
def parseDecimal (s : Txt) : Option ℚ :=
  (decSplit s).map (fun t => decValue t.1 t.2.1 t.2.2)

/-- The literal null token "N/A" recognized by the normalizers. -/
def nA : Txt := ['N', '/', 'A']

/-- A Python value reaching a normalizer: `None` (covering pandas NaN,
which the sources test with `pd.isna`), a number, or a string. -/
inductive PyVal where
  | null : PyVal
  | num : ℚ → PyVal
  | str : Txt → PyVal
  deriving DecidableEq

/-- Remove every comma, as `value.replace(",", "")` does. -/
def stripCommas (s : Txt) : Txt := s.filter (fun c => !(c == ','))

/-- Remove every dollar sign, as `value.replace("$", "")` does. -/
def stripDollar (s : Txt) : Txt := s.filter (fun c => !(c == '$'))

/-- Python `str.endswith` with a single-character suffix. -/
def lastIs (s : Txt) (c : Char) : Bool := s.getLast? == some c

/-- The suffix-multiplier step of the currency parser: a trailing M is a
million, a trailing K a thousand; the suffix is dropped. -/
def currencyMult (v : Txt) : ℚ × Txt :=
  if lastIs v 'M' then (1000000, v.dropLast)
  else if lastIs v 'K' then (1000, v.dropLast)
  else (1, v)

/-- src/etl/transform.py `parse_currency`: null, empty and "N/A" to null;
numbers pass through; text is stripped, commas removed, a trailing K/M
multiplier applied, dollar signs removed, and read as a float, with
unparseable residue yielding null. -/
def parse_currency : PyVal → Option ℚ
  | PyVal.null => none
  | PyVal.num q => some q
  | PyVal.str s =>
    if s = [] ∨ s = nA then none
    else
      let v := stripCommas (trim s)
      let mv := currencyMult v
      match parseDecimal (stripDollar mv.2) with
      | some q => some (q * mv.1)
      | none => none

/-- The first maximal run of digits in the text, as `re.search(r"(\d+)")`
finds it; `none` when the text has no digit. -/
def firstDigitRun : Txt → Option Txt
  | [] => none
  | c :: cs =>
    if isDigitCh c then some (c :: cs.takeWhile isDigitCh)
    else firstDigitRun cs

/-- src/etl/transform.py `parse_runtime`: null, empty and "N/A" to null;
numbers pass through; otherwise the first run of digits, read as minutes,
and null when the text has no digit. -/
def parse_runtime : PyVal → Option ℚ
  | PyVal.null => none
  | PyVal.num q => some q
  | PyVal.str s =>
    if s = [] ∨ s = nA then none
    else
      match firstDigitRun s with
      | some d => some ((digitsToNat d : ℚ))
      | none => none

/-- src/etl/transform.py `GRADE_MAP`: the 13-point letter-grade scale. -/
def GRADE_MAP : List (Txt × ℚ) :=
  [ (['A', '+'], 4), (['A'], 4), (['A', '-'], 37/10),
    (['B', '+'], 33/10), (['B'], 3), (['B', '-'], 27/10),
    (['C', '+'], 23/10), (['C'], 2), (['C', '-'], 17/10),
    (['D', '+'], 13/10), (['D'], 1), (['D', '-'], 7/10),
    (['F'], 0) ]

/-- Dictionary lookup `value in GRADE_MAP`. -/
def lookupGrade (s : Txt) : Option ℚ :=
  (GRADE_MAP.find? (fun p => p.1 == s)).map Prod.snd

/-- One numeric token of the fraction regex
`(\d+(?:\.\d+)?)/(\d+(?:\.\d+)?)`: digits with an optional `.digits`
part; returns its value and the unconsumed rest.  (Backtracking never
helps this regex: when the optional part matches, the next character
cannot be the `/` the pattern needs, so the greedy read is exact.) -/
def matchNumToken (s : Txt) : Option (ℚ × Txt) :=
  if s.takeWhile isDigitCh = [] then none
  else
    match s.dropWhile isDigitCh with
    | '.' :: r2 =>
      if r2.takeWhile isDigitCh = [] then
        some ((digitsToNat (s.takeWhile isDigitCh) : ℚ), '.' :: r2)
      else
        some ((digitsToNat (s.takeWhile isDigitCh) : ℚ) +
          fracVal (r2.takeWhile isDigitCh), r2.dropWhile isDigitCh)
    | r => some ((digitsToNat (s.takeWhile isDigitCh) : ℚ), r)

/-- `re.match` of the fraction pattern at the start of the text: a numeric
token, a slash, a numeric token; trailing text is ignored. -/
def matchFraction (s : Txt) : Option (ℚ × ℚ) :=
  match matchNumToken s with
  | none => none
  | some (num, rest) =>
    match rest with
    | '/' :: rest2 =>
      match matchNumToken rest2 with
      | none => none
      | some (den, _) => some (num, den)
    | _ => none

/-- src/etl/transform.py `normalize_review_score`: null to null; the text is
stripped; empty and "N/A" to null; a `num/den` fraction gives num/den
(null when den is 0); a letter grade gives its table value over 4; a bare
number passes through; anything else is null. -/
def normalize_review_score (v : Option Txt) : Option ℚ :=
  match v with
  | none => none
  | some raw =>
    let value := trim raw
    if value = [] ∨ value = nA then none
    else
      match matchFraction value with
      | some (num, den) => if den = 0 then none else some (num / den)
      | none =>
        match lookupGrade value with
        | some g => some (g / 4)
        | none => parseDecimal value

/-- A calendar date (the time-of-day part plays no role in the claims). -/
structure Date where
  year : ℤ
  month : ℕ
  day : ℕ
  deriving DecidableEq

/-- The pattern the Spark path requires of a date string:
`rlike` with regex anchored at the start, 4 digits, dash, 2 digits,
dash, 2 digits, anything after. -/
def matchesDateStart : Txt → Bool
  | y1 :: y2 :: y3 :: y4 :: '-' :: m1 :: m2 :: '-' :: d1 :: d2 :: _ =>
    isDigitCh y1 && isDigitCh y2 && isDigitCh y3 && isDigitCh y4 &&
    isDigitCh m1 && isDigitCh m2 && isDigitCh d1 && isDigitCh d2
  | _ => false

/-- Modelled from the Spark built-in `to_timestamp` with its default
format: a leading ISO `yyyy-MM-dd` date, followed by nothing or by a
time part; null input and unparseable text give null; calendar
validation is simplified to month 1..12 and day 1..31. -/
def spark_to_timestamp : Option Txt → Option Date
  | none => none
  | some s =>
    match s with
    | y1 :: y2 :: y3 :: y4 :: '-' :: m1 :: m2 :: '-' :: d1 :: d2 :: rest =>
      if isDigitCh y1 && isDigitCh y2 && isDigitCh y3 && isDigitCh y4 &&
         isDigitCh m1 && isDigitCh m2 && isDigitCh d1 && isDigitCh d2 then
        let m := digitsToNat [m1, m2]
        let d := digitsToNat [d1, d2]
        if 1 ≤ m ∧ m ≤ 12 ∧ 1 ≤ d ∧ d ≤ 31 ∧
           (rest = [] ∨ rest.head? = some ' ' ∨ rest.head? = some 'T') then
          some ⟨(digitsToNat [y1, y2, y3, y4] : ℤ), m, d⟩
        else none
      else none
    | _ => none

/-- src/etl/spark_transform.py `safe_timestamp`: trim; null, empty,
"n/a" (case-insensitive) and anything not starting with the
4-digit-year 2-digit-month 2-digit-day pattern become null before
`to_timestamp` ever sees them. -/
def safe_timestamp (col : Option Txt) : Option Date :=
  match col with
  | none => spark_to_timestamp none
  | some s0 =>
    let t := trim s0
    if t = [] ∨ t.map Char.toLower = ['n', '/', 'a'] ∨ ¬ matchesDateStart t
    then spark_to_timestamp none
    else spark_to_timestamp (some t)

/-- Modelled from the pandas library call `pd.to_datetime(...,
errors="coerce")`: a flexible coercing date parser.  Modelled here on
two of the formats it accepts, ISO `YYYY-MM-DD` and the US
`MM/DD/YYYY` form (month first, the pandas default); everything else
is null in this model (the real parser accepts further formats, which
only enlarges the set of non-null results). -/
def pd_to_datetime : Option Txt → Option Date
  | none => none
  | some s =>
    match s with
    | y1 :: y2 :: y3 :: y4 :: '-' :: m1 :: m2 :: '-' :: d1 :: d2 :: [] =>
      if isDigitCh y1 && isDigitCh y2 && isDigitCh y3 && isDigitCh y4 &&
         isDigitCh m1 && isDigitCh m2 && isDigitCh d1 && isDigitCh d2 &&
         decide (1 ≤ digitsToNat [m1, m2] ∧ digitsToNat [m1, m2] ≤ 12) &&
         decide (1 ≤ digitsToNat [d1, d2] ∧ digitsToNat [d1, d2] ≤ 31) then
        some ⟨(digitsToNat [y1, y2, y3, y4] : ℤ), digitsToNat [m1, m2],
              digitsToNat [d1, d2]⟩
      else none
    | m1 :: m2 :: '/' :: d1 :: d2 :: '/' :: y1 :: y2 :: y3 :: y4 :: [] =>
      if isDigitCh y1 && isDigitCh y2 && isDigitCh y3 && isDigitCh y4 &&
         isDigitCh m1 && isDigitCh m2 && isDigitCh d1 && isDigitCh d2 &&
         decide (1 ≤ digitsToNat [m1, m2] ∧ digitsToNat [m1, m2] ≤ 12) &&
         decide (1 ≤ digitsToNat [d1, d2] ∧ digitsToNat [d1, d2] ≤ 31) then
        some ⟨(digitsToNat [y1, y2, y3, y4] : ℤ), digitsToNat [m1, m2],
              digitsToNat [d1, d2]⟩
      else none
    | _ => none

/-- src/etl/transform.py `safe_to_datetime`: delegates one column to
`pd.to_datetime(series, errors="coerce", utc=True)` per entry. -/
def safe_to_datetime (s : Option Txt) : Option Date := pd_to_datetime s

/-- A pandas float64 cell: a finite value, an infinity, or NaN.  A null
cell of a pandas float column IS NaN — `toPFloat` embeds the nullable
model accordingly. -/
inductive PFloat where
  | val : ℚ → PFloat
  | pinf : PFloat
  | ninf : PFloat
  | nan : PFloat
  deriving DecidableEq

/-- A nullable rational as pandas stores it in a float64 column. -/
def toPFloat : Option ℚ → PFloat
  | none => PFloat.nan
  | some q => PFloat.val q

/-- IEEE-754 double division as numpy performs it for a pandas
`Series / Series`: NaN propagates; finite x/0 is a signed infinity
(NaN when x is 0); finite/infinite is 0; infinite/finite keeps the
sign; infinite/infinite is NaN. -/
def pdiv : PFloat → PFloat → PFloat
  | PFloat.nan, _ => PFloat.nan
  | _, PFloat.nan => PFloat.nan
  | PFloat.val a, PFloat.val b =>
    if b = 0 then
      (if a = 0 then PFloat.nan else if 0 < a then PFloat.pinf else PFloat.ninf)
    else PFloat.val (a / b)
  | PFloat.val _, PFloat.pinf => PFloat.val 0
  | PFloat.val _, PFloat.ninf => PFloat.val 0
  | PFloat.pinf, PFloat.val b => if b < 0 then PFloat.ninf else PFloat.pinf
  | PFloat.ninf, PFloat.val b => if b < 0 then PFloat.pinf else PFloat.ninf
  | PFloat.pinf, PFloat.pinf => PFloat.nan
  | PFloat.pinf, PFloat.ninf => PFloat.nan
  | PFloat.ninf, PFloat.pinf => PFloat.nan
  | PFloat.ninf, PFloat.ninf => PFloat.nan

/-- The derived metric as src/etl/transform.py computes it at line 206:
`films["box_office_usd"] / films["runtime_minutes"]`, an unguarded
pandas float division on nullable columns. -/
def revenue_per_minute_pandas (box runtime : Option ℚ) : PFloat :=
  pdiv (toPFloat box) (toPFloat runtime)

/-- The derived metric as src/etl/spark_transform.py computes it at line
293: Spark SQL division, which is null when either operand is null and
null on division by zero. -/
def revenue_per_minute_spark (box runtime : Option ℚ) : Option ℚ :=
  match box, runtime with
  | some b, some r => if r = 0 then none else some (b / r)
  | _, _ => none

/-- pandas `Series.fillna` at one cell: the first value when present,
else the second — the coalescing primitive of the merge. -/
def fillna : Option α → Option α → Option α
  | some x, _ => some x
  | none, b => b

/-- `genre.str.split(",").str[0].str.strip()`: first comma-separated
token of a genre list, trimmed; null propagates. -/
def firstGenreToken (g : Option Txt) : Option Txt :=
  g.map (fun s => trim (s.takeWhile (fun c => !(c == ','))))

/-- One normalized row of the aggregator (Rotten Tomatoes) film source,
after the per-column normalizers of `build_films_table` have run:
`rt_id` from the raw `id` column, numeric columns through
`safe_to_numeric` / `parse_currency`, dates through `safe_to_datetime`. -/
structure RTRow where
  rt_id : Option Txt
  title : Option Txt
  audienceScore : Option ℚ
  tomatoMeter : Option ℚ
  runtime_minutes : Option ℚ
  box_office_usd : Option ℚ
  genre : Option Txt
  releaseDateTheaters : Option Date
  releaseDateStreaming : Option Date
  director : Option Txt
  writer : Option Txt
  deriving DecidableEq

/-- One normalized row of the external catalog (IMDB) source, after the
per-column normalizers of `build_films_table` have run; `rt_id` is the
regex extraction of the embedded identifier from the `tomatoURL`
column. -/
structure IMDBRow where
  rt_id : Option Txt
  imdbID : Option Txt
  title : Option Txt
  year : Option ℚ
  runtime_minutes : Option ℚ
  box_office_usd : Option ℚ
  imdbRating : Option ℚ
  imdbVotes : Option ℚ
  metascore : Option ℚ
  genre : Option Txt
  director : Option Txt
  writer : Option Txt
  actors : Option Txt
  language : Option Txt
  country : Option Txt
  deriving DecidableEq

/-- One row of the output Film table, the columns selected by
`column_map` in `build_films_table`. -/
structure Film where
  film_id : Option Txt
  rt_id : Option Txt
  imdb_id : Option Txt
  title : Option Txt
  year : Option ℚ
  primary_genre : Option Txt
  runtime_minutes : Option ℚ
  audience_score : Option ℚ
  tomato_meter : Option ℚ
  imdb_rating : Option ℚ
  imdb_votes : Option ℚ
  metascore : Option ℚ
  box_office_usd : Option ℚ
  revenue_per_minute : PFloat
  rt_director : Option Txt
  rt_writer : Option Txt
  imdb_director : Option Txt
  imdb_writer : Option Txt
  actors : Option Txt
  language : Option Txt
  country : Option Txt
  rt_release_date : Option Date
  rt_streaming_date : Option Date
  deriving DecidableEq

/-- The per-row field resolution of `build_films_table` (transform.py
lines 195-211) after the outer merge on `rt_id`: every pandas `fillna`
coalesce, the derived metric, and the pass-through columns.  `rt`
absent / `imdb` absent is a row the merge matched on one side only. -/
def mergeRow (rt : Option RTRow) (imdb : Option IMDBRow) : Film :=
  let rtid := fillna (rt.bind RTRow.rt_id) (imdb.bind IMDBRow.rt_id)
  let imdbid := imdb.bind IMDBRow.imdbID
  let runtime := fillna (imdb.bind IMDBRow.runtime_minutes)
    (rt.bind RTRow.runtime_minutes)
  let box := fillna (imdb.bind IMDBRow.box_office_usd)
    (rt.bind RTRow.box_office_usd)
  { film_id := fillna imdbid rtid
    rt_id := rtid
    imdb_id := imdbid
    title := fillna (imdb.bind IMDBRow.title) (rt.bind RTRow.title)
    year := fillna (imdb.bind IMDBRow.year)
      ((rt.bind RTRow.releaseDateTheaters).map (fun d => (d.year : ℚ)))
    primary_genre := fillna (firstGenreToken (rt.bind RTRow.genre))
      (firstGenreToken (imdb.bind IMDBRow.genre))
    runtime_minutes := runtime
    audience_score := rt.bind RTRow.audienceScore
    tomato_meter := rt.bind RTRow.tomatoMeter
    imdb_rating := imdb.bind IMDBRow.imdbRating
    imdb_votes := imdb.bind IMDBRow.imdbVotes
    metascore := imdb.bind IMDBRow.metascore
    box_office_usd := box
    revenue_per_minute := revenue_per_minute_pandas box runtime
    rt_director := rt.bind RTRow.director
    rt_writer := rt.bind RTRow.writer
    imdb_director := imdb.bind IMDBRow.director
    imdb_writer := imdb.bind IMDBRow.writer
    actors := imdb.bind IMDBRow.actors
    language := imdb.bind IMDBRow.language
    country := imdb.bind IMDBRow.country
    rt_release_date := rt.bind RTRow.releaseDateTheaters
    rt_streaming_date := rt.bind RTRow.releaseDateStreaming }

/-- The full outer merge of the two sources on `rt_id` (`pd.merge(...,
how="outer", on="rt_id")`): each aggregator row paired with every
external-catalog row of equal key, unmatched rows of either side kept
with the other side absent. -/
def outerJoin (rts : List RTRow) (imdbs : List IMDBRow) :
    List (Option RTRow × Option IMDBRow) :=
  (rts.flatMap (fun r =>
    let ms := imdbs.filter (fun i => i.rt_id == r.rt_id)
    if ms.isEmpty then [(some r, none)]
    else ms.map (fun i => (some r, some i))))
  ++ ((imdbs.filter (fun i => rts.all (fun r => !(r.rt_id == i.rt_id)))).map
      (fun i => ((none : Option RTRow), some i)))

/-- Keep-first deduplication by a key, the behavior of pandas
`drop_duplicates(subset=[...])`; `seen` accumulates the keys already
emitted. -/
def dropDupAux (key : α → β) [DecidableEq β] (seen : List β) :
    List α → List α
  | [] => []
  | x :: xs =>
    if key x ∈ seen then dropDupAux key seen xs
    else x :: dropDupAux key (key x :: seen) xs

/-- `df.drop_duplicates(subset=[...])`: first row per key value wins. -/
def dropDuplicatesBy (key : α → β) [DecidableEq β] (l : List α) : List α :=
  dropDupAux key [] l

/-- src/etl/transform.py `build_films_table`, from the two normalized
source row sets: outer merge on `rt_id`, per-row coalescing, then
`drop_duplicates(subset=["film_id"])`. -/
def build_films_table (rts : List RTRow) (imdbs : List IMDBRow) : List Film :=
  dropDuplicatesBy Film.film_id
    ((outerJoin rts imdbs).map (fun p => mergeRow p.1 p.2))

/-- A raw source file, modelled as its list of lines (iterating a Python
file handle yields its lines). -/
abbrev FileContent := List Txt

/-- A content digest.  src/ingestion/utils.py `compute_sha256` streams
SHA-256 over the file bytes in 1 MiB chunks; the digest is modelled as
the content itself, the collision-freedom abstraction under which two
files share a digest exactly when their bytes agree. -/
abbrev Digest := FileContent

/-- src/ingestion/utils.py `compute_sha256` under the collision-free
digest abstraction. -/
def compute_sha256 (content : FileContent) : Digest := content

/-- src/ingestion/utils.py `count_lines`: `count` starts at -1, the
`enumerate(fh, start=0)` loop leaves it at the index of the last line,
and `max(count, 0)` is returned — so a file with L lines yields L - 1
for L at least 1, and an empty file yields 0. -/
def count_lines (lines : FileContent) : Int :=
  max ((lines.length : Int) - 1) 0

/-- The byte size reported by `stat`, abstracted to the total length of
the lines (its exact value decides no claim). -/
def byteSize (c : FileContent) : ℕ := (c.map List.length).sum

/-- One row of the ingestion ledger (`METADATA_COLUMNS` of
src/ingestion/utils.py). -/
structure MetadataRecord where
  run_id : String
  source : String
  status : String
  content_hash : Digest
  row_count : Int
  byte_size : ℕ
  raw_path : String
  created_at : String
  deriving DecidableEq

/-- src/ingestion/utils.py `build_metadata_record`; `now` stands for
`datetime.now(timezone.utc).isoformat()`. -/
def build_metadata_record (runId source status : String) (hash : Digest)
    (rowCount : Int) (byte : ℕ) (rawPath now : String) : MetadataRecord :=
  { run_id := runId, source := source, status := status,
    content_hash := hash, row_count := rowCount, byte_size := byte,
    raw_path := rawPath, created_at := now }

/-- src/ingestion/utils.py `already_ingested`: an empty ledger gives
false; otherwise true exactly when filtering on source AND content hash
leaves something.  (The status column is not consulted.) -/
def already_ingested (ledger : List MetadataRecord) (source : String)
    (content_hash : Digest) : Bool :=
  if ledger.isEmpty then false
  else !(ledger.filter
    (fun r => r.source == source && r.content_hash == content_hash)).isEmpty

/-- The `_SUCCESS.json` marker payload written next to a fresh copy
(`dataset` is only present for the Kaggle loader). -/
structure SuccessMarker where
  source : String
  dataset : Option String
  file : String
  rows : Int
  hash : Digest
  deriving DecidableEq

/-- One run-scoped directory of the run-versioned store: the copied raw
file and its success marker under `RAW_ROOT/source/run_id/`. -/
structure StoredRun where
  source : String
  run_id : String
  file_name : String
  content : FileContent
  marker : SuccessMarker
  deriving DecidableEq

/-- The persistent state the ingestion pipeline touches: the ledger file
and the run-versioned raw store. -/
structure IngestState where
  ledger : List MetadataRecord
  store : List StoredRun
  deriving DecidableEq

/-- src/ingestion/config.py `SourceKind`. -/
inductive SourceKind where
  | csv_local : SourceKind
  | kaggle_imdb : SourceKind
  deriving DecidableEq

/-- src/ingestion/config.py `SourceConfig` (paths reduced to the file
name; presence of the input file is a separate parameter of the
loaders). -/
structure SourceConfig where
  name : String
  kind : SourceKind
  file_name : String
  dataset_id : Option String
  deriving DecidableEq

/-- The result dictionary a loader or the pipeline hands back: the
`status` key distinguishes the three shapes the code builds. -/
inductive IngestOutcome where
  | completed : MetadataRecord → IngestOutcome
  | skipped : String → String → Digest → IngestOutcome
  | failed : MetadataRecord → String → IngestOutcome
  deriving DecidableEq

/-- The `status` field of a result dictionary. -/
def IngestOutcome.status : IngestOutcome → String
  | IngestOutcome.completed _ => "completed"
  | IngestOutcome.skipped _ _ _ => "skipped"
  | IngestOutcome.failed _ _ => "failed"

/-- The reason string of a skipped result ("hash deja present" in the
source, accent dropped). -/
def skipReason : String := "hash deja present"

/-- The `raw_path` of a fresh copy: `RAW_ROOT/source/run_id/file`. -/
def rawPathOf (cfg : SourceConfig) (runId : String) : String :=
  cfg.name ++ ("/") ++ runId ++ ("/") ++ cfg.file_name

/-- src/ingestion/csv_loader.py `ingest_csv`: a missing input raises
(`Except.error`); a hash already in the ledger short-circuits to a
skipped result with no state change; otherwise the file is copied into
a fresh run folder, a success marker written (row count is line count
minus one for the header), and a completed record built — the ledger
itself is not written here. -/
def ingest_csv (cfg : SourceConfig) (input : Option FileContent)
    (runId now : String) (st : IngestState) :
    Except String (IngestOutcome × IngestState) :=
  match input with
  | none =>
    Except.error (("Fichier introuvable pour la source ") ++ cfg.name)
  | some content =>
    let file_hash := compute_sha256 content
    if already_ingested st.ledger cfg.name file_hash then
      Except.ok (IngestOutcome.skipped cfg.name skipReason file_hash, st)
    else
      let rows := count_lines content - 1
      let marker : SuccessMarker :=
        { source := cfg.name, dataset := none, file := cfg.file_name,
          rows := rows, hash := file_hash }
      let stored : StoredRun :=
        { source := cfg.name, run_id := runId, file_name := cfg.file_name,
          content := content, marker := marker }
      let record := build_metadata_record runId cfg.name ("completed")
        file_hash rows (byteSize content) (rawPathOf cfg runId) now
      Except.ok (IngestOutcome.completed record,
        { ledger := st.ledger, store := st.store ++ [stored] })

/-- src/ingestion/kaggle_loader.py `ingest_kaggle`: `_download_dataset`
raises when `dataset_id` is missing or the expected file is absent from
the downloaded dataset (`dataset` holds that file's content when
present); the rest mirrors `ingest_csv`, with the dataset id recorded
in the marker. -/
def ingest_kaggle (cfg : SourceConfig) (dataset : Option FileContent)
    (runId now : String) (st : IngestState) :
    Except String (IngestOutcome × IngestState) :=
  match cfg.dataset_id with
  | none => Except.error ("dataset_id obligatoire pour les sources Kaggle")
  | some did =>
    match dataset with
    | none =>
      Except.error (("Fichier ") ++ cfg.file_name ++ (" introuvable"))
    | some content =>
      let file_hash := compute_sha256 content
      if already_ingested st.ledger cfg.name file_hash then
        Except.ok (IngestOutcome.skipped cfg.name skipReason file_hash, st)
      else
        let rows := count_lines content - 1
        let marker : SuccessMarker :=
          { source := cfg.name, dataset := some did, file := cfg.file_name,
            rows := rows, hash := file_hash }
        let stored : StoredRun :=
          { source := cfg.name, run_id := runId, file_name := cfg.file_name,
            content := content, marker := marker }
        let record := build_metadata_record runId cfg.name ("completed")
          file_hash rows (byteSize content) (rawPathOf cfg runId) now
        Except.ok (IngestOutcome.completed record,
          { ledger := st.ledger, store := st.store ++ [stored] })

/-- The `failed` dictionary `run_for_source` builds in its `except`
arm: empty hash, zero counts, empty path. -/
def failedRecord (runId source now : String) : MetadataRecord :=
  { run_id := runId, source := source, status := ("failed"),
    content_hash := [], row_count := 0, byte_size := 0, raw_path := (""),
    created_at := now }

/-- src/ingestion/pipeline.py `run_for_source`: dispatch on the source
kind, convert an exception into a failed result without touching any
state, and append the result to the ledger only when its status is
"completed" — skipped results are returned but never recorded. -/
def run_for_source (cfg : SourceConfig) (input : Option FileContent)
    (runId now : String) (st : IngestState) : IngestOutcome × IngestState :=
  let attempt :=
    match cfg.kind with
    | SourceKind.csv_local => ingest_csv cfg input runId now st
    | SourceKind.kaggle_imdb => ingest_kaggle cfg input runId now st
  match attempt with
  | Except.error msg =>
    (IngestOutcome.failed (failedRecord runId cfg.name now) msg, st)
  | Except.ok (IngestOutcome.completed record, st2) =>
    (IngestOutcome.completed record,
      { ledger := st2.ledger ++ [record], store := st2.store })
  | Except.ok (outcome, st2) => (outcome, st2)

/-! Concrete instances used by counterexamples and witnesses. -/

/-- A csv_local source configuration (the shape of `rt_movies` /
`rt_reviews` in src/ingestion/config.py). -/
def csvCfg (name fn : String) : SourceConfig :=
  { name := name, kind := SourceKind.csv_local, file_name := fn,
    dataset_id := none }

/-- The rt_movies source configuration. -/
def cexCfg : SourceConfig :=
  csvCfg ("rt_movies") ("rotten_tomatoes_movies.csv")

/-- A two-line file: a header line and one data line. -/
def cexContent : FileContent := [['h'], ['a']]

/-- First ingestion of `cexContent` from a fresh state. -/
def cexRun1 : IngestOutcome × IngestState :=
  run_for_source cexCfg (some cexContent) ("r1") ("t1")
    { ledger := [], store := [] }

/-- Second ingestion of the same content. -/
def cexRun2 : IngestOutcome × IngestState :=
  run_for_source cexCfg (some cexContent) ("r2") ("t2") cexRun1.2

/-- The three-run scenario of the ledger-idempotence property: the same
content twice, then a byte-modified file, through `run_for_source` from
a fresh state; returns the three outcomes and the final state. -/
def ingestTwiceThenModified (name fn : String) (c c2 : FileContent) :
    IngestOutcome × IngestOutcome × IngestOutcome × IngestState :=
  let cfg := csvCfg name fn
  let p1 := run_for_source cfg (some c) ("r1") ("t1")
    { ledger := [], store := [] }
  let p2 := run_for_source cfg (some c) ("r2") ("t2") p1.2
  let p3 := run_for_source cfg (some c2) ("r3") ("t3") p2.2
  (p1.1, p2.1, p3.1, p3.2)

/-- A ledger holding one failed record for the pair ("rt_movies",
digest of `cexContent`): no completed record exists for that pair. -/
def cexLedgerFailed : List MetadataRecord :=
  [{ run_id := ("r0"), source := ("rt_movies"), status := ("failed"),
     content_hash := cexContent, row_count := 0, byte_size := 0,
     raw_path := (""), created_at := ("t0") }]

/-- A ledger holding one completed record for the pair ("rt_movies",
digest of `cexContent`). -/
def cexLedgerDone : List MetadataRecord :=
  [{ run_id := ("r0"), source := ("rt_movies"), status := ("completed"),
     content_hash := cexContent, row_count := 1, byte_size := 1,
     raw_path := ("p"), created_at := ("t0") }]

/-- A kaggle-kind configuration with a dataset id, for the Kaggle-loader
half of the no-second-copy property. -/
def cexKaggleCfg : SourceConfig :=
  { name := ("rt_movies"), kind := SourceKind.kaggle_imdb,
    file_name := ("f.csv"), dataset_id := some ("d/imdb") }

/-- An external-catalog row whose normalized runtime is 0 and whose
normalized box office is 100 (e.g. raw Runtime "0 min", BoxOffice
"$100"). -/
def imdbRowDivZero : IMDBRow :=
  { rt_id := some ['m', '1']
    imdbID := some ['t', 't', '1']
    title := some ['T']
    year := some 2000
    runtime_minutes := some 0
    box_office_usd := some 100
    imdbRating := none
    imdbVotes := none
    metascore := none
    genre := none
    director := none
    writer := none
    actors := none
    language := none
    country := none }

/-- An aggregator row with every coalesced field populated. -/
def rtRowW : RTRow :=
  { rt_id := some ['m', '1']
    title := some ['T', 'r']
    audienceScore := some 81
    tomatoMeter := some 92
    runtime_minutes := some 111
    box_office_usd := some 7
    genre := some ['D', 'r', 'a', 'm', 'a', ',', 'W', 'a', 'r']
    releaseDateTheaters := some ⟨1999, 3, 2⟩
    releaseDateStreaming := none
    director := some ['A']
    writer := some ['B'] }

/-- An external-catalog row with every coalesced field populated and the
same extracted `rt_id` as `rtRowW`. -/
def imdbRowW : IMDBRow :=
  { rt_id := some ['m', '1']
    imdbID := some ['t', 't', '1']
    title := some ['T', 'i']
    year := some 1998
    runtime_minutes := some 112
    box_office_usd := some 9
    imdbRating := some 8
    imdbVotes := some 1000
    metascore := some 70
    genre := some ['W', 'a', 'r']
    director := some ['C']
    writer := some ['D']
    actors := some ['E']
    language := none
    country := none }

/-- The US-format date string "01/02/2020". -/
def mdyTxt : Txt := ['0', '1', '/', '0', '2', '/', '2', '0', '2', '0']

/-- The ISO date string "2020-01-02". -/
def isoTxt : Txt := ['2', '0', '2', '0', '-', '0', '1', '-', '0', '2']

/-! Helper lemmas. -/

theorem fillna_none (a : Option α) : fillna a none = a := by
  cases a <;> rfl

theorem fillna_some (t : α) (b : Option α) : fillna (some t) b = some t := rfl

theorem fillna_none_left (b : Option α) : fillna none b = b := rfl

theorem dropDupAux_spec (key : α → β) [DecidableEq β] :
    ∀ (l : List α) (seen : List β),
      ((dropDupAux key seen l).map key).Nodup ∧
      ∀ b ∈ (dropDupAux key seen l).map key, b ∉ seen := by
  intro l
  induction l with
  | nil => intro seen; simp [dropDupAux]
  | cons x xs ih =>
    intro seen
    by_cases hx : key x ∈ seen
    · simpa [dropDupAux, hx] using ih seen
    · have h2 := ih (key x :: seen)
      simp only [dropDupAux, if_neg hx, List.map_cons, List.nodup_cons]
      refine ⟨⟨fun hmem => ?_, h2.1⟩, ?_⟩
      · exact (h2.2 _ hmem) (List.mem_cons_self _ _)
      · intro b hb
        rcases List.mem_cons.mp hb with rfl | hb2
        · exact hx
        · intro hbseen
          exact (h2.2 _ hb2) (List.mem_cons_of_mem _ hbseen)

theorem count_lines_cons (x : Txt) (l : List Txt) :
    count_lines (x :: l) = (l.length : Int) := by
  simp only [count_lines, List.length_cons]
  rw [max_eq_left (by push_cast; omega)]
  push_cast
  omega

theorem already_ingested_iff (ledger : List MetadataRecord)
    (source : String) (h : Digest) :
    already_ingested ledger source h = true ↔
      ∃ r ∈ ledger, r.source = source ∧ r.content_hash = h := by
  unfold already_ingested
  split
  · rename_i hemp
    rw [List.isEmpty_iff] at hemp
    subst hemp
    simp
  · rw [Bool.not_eq_true']
    constructor
    · intro hne
      have hex : ∃ r ∈ ledger,
          (r.source == source && r.content_hash == h) = true := by
        by_contra hall
        push_neg at hall
        have hnil : ledger.filter
            (fun r => r.source == source && r.content_hash == h) = [] := by
          rw [List.filter_eq_nil_iff]
          intro a ha
          simpa using hall a ha
        rw [hnil] at hne
        simp at hne
      obtain ⟨r, hr, hb⟩ := hex
      rw [Bool.and_eq_true, beq_iff_eq, beq_iff_eq] at hb
      exact ⟨r, hr, hb.1, hb.2⟩
    · intro ⟨r, hr, h1, h2⟩
      have hmem : r ∈ ledger.filter
          (fun r => r.source == source && r.content_hash == h) :=
        List.mem_filter.mpr ⟨hr, by
          rw [Bool.and_eq_true, beq_iff_eq, beq_iff_eq]; exact ⟨h1, h2⟩⟩
      cases hh : (ledger.filter
          (fun r => r.source == source && r.content_hash == h)).isEmpty
      · rfl
      · rw [List.isEmpty_iff] at hh
        rw [hh] at hmem
        cases hmem

theorem fracVal_nonneg (f : Txt) : 0 ≤ fracVal f := by
  unfold fracVal
  positivity

theorem takeWhile_ne_nil_head (p : α → Bool) (l : List α)
    (h : l.takeWhile p ≠ []) : ∃ c t, l = c :: t ∧ p c = true := by
  cases l with
  | nil => simp at h
  | cons a t =>
    by_cases hp : p a
    · exact ⟨a, t, rfl, hp⟩
    · rw [List.takeWhile_cons, if_neg (by simp [hp])] at h
      exact absurd rfl h

theorem matchNumToken_ne_nil (s : Txt) (q : ℚ) (rest : Txt)
    (h : matchNumToken s = some (q, rest)) : s.takeWhile isDigitCh ≠ [] := by
  unfold matchNumToken at h
  by_cases he : s.takeWhile isDigitCh = []
  · rw [if_pos he] at h
    cases h
  · exact he

theorem matchNumToken_nonneg (s : Txt) (q : ℚ) (rest : Txt)
    (h : matchNumToken s = some (q, rest)) : 0 ≤ q := by
  unfold matchNumToken at h
  split at h
  · cases h
  · split at h
    · split at h
      · rw [Option.some_inj, Prod.mk.injEq] at h
        obtain ⟨rfl, rfl⟩ := h
        exact Nat.cast_nonneg _
      · rw [Option.some_inj, Prod.mk.injEq] at h
        obtain ⟨rfl, rfl⟩ := h
        exact add_nonneg (Nat.cast_nonneg _) (fracVal_nonneg _)
    · rw [Option.some_inj, Prod.mk.injEq] at h
      obtain ⟨rfl, rfl⟩ := h
      exact Nat.cast_nonneg _

theorem matchFraction_nonneg (s : Txt) (num den : ℚ)
    (h : matchFraction s = some (num, den)) : 0 ≤ num ∧ 0 ≤ den := by
  unfold matchFraction at h
  cases hm : matchNumToken s with
  | none => rw [hm] at h; cases h
  | some p =>
    obtain ⟨q1, rest⟩ := p
    rw [hm] at h
    simp only at h
    split at h
    · rename_i rest2
      cases hm2 : matchNumToken rest2 with
      | none => rw [hm2] at h; cases h
      | some p2 =>
        obtain ⟨q2, rest3⟩ := p2
        rw [hm2] at h
        simp only at h
        rw [Option.some_inj, Prod.mk.injEq] at h
        obtain ⟨rfl, rfl⟩ := h
        exact ⟨matchNumToken_nonneg _ _ _ hm,
          matchNumToken_nonneg _ _ _ hm2⟩
    · cases h

theorem matchFraction_head (s : Txt) (num den : ℚ)
    (h : matchFraction s = some (num, den)) :
    ∃ c t, s = c :: t ∧ isDigitCh c = true := by
  unfold matchFraction at h
  cases hm : matchNumToken s with
  | none => rw [hm] at h; cases h
  | some p =>
    exact takeWhile_ne_nil_head _ _ (matchNumToken_ne_nil _ _ _ hm)

theorem isDigitCh_iff (c : Char) :
    isDigitCh c = true ↔ 48 ≤ c.toNat ∧ c.toNat ≤ 57 := by
  simp [isDigitCh]

theorem digitVal_le_nine (c : Char) (h : isDigitCh c = true) :
    digitVal c ≤ 9 := by
  have h2 := (isDigitCh_iff c).mp h
  unfold digitVal
  omega

theorem digitsToNatAux_eq (l : Txt) (a : ℕ) :
    digitsToNatAux a l = a * 10 ^ l.length + digitsToNatAux 0 l := by
  induction l generalizing a with
  | nil => show a = a * 10 ^ 0 + 0; omega
  | cons c cs ih =>
    show digitsToNatAux (10 * a + digitVal c) cs
        = a * 10 ^ (c :: cs).length + digitsToNatAux (10 * 0 + digitVal c) cs
    rw [List.length_cons, ih (10 * a + digitVal c),
      ih (10 * 0 + digitVal c)]
    ring

theorem digitsToNat_lt (l : Txt) (h : ∀ c ∈ l, isDigitCh c = true) :
    digitsToNat l < 10 ^ l.length := by
  induction l with
  | nil => decide
  | cons c cs ih =>
    have h1 : digitsToNat cs < 10 ^ cs.length :=
      ih (fun x hx => h x (List.mem_cons_of_mem _ hx))
    have h2 : digitVal c ≤ 9 :=
      digitVal_le_nine c (h c (List.mem_cons_self _ _))
    have h3 : digitsToNat (c :: cs)
        = digitVal c * 10 ^ cs.length + digitsToNat cs := by
      show digitsToNatAux (10 * 0 + digitVal c) cs
          = digitVal c * 10 ^ cs.length + digitsToNat cs
      rw [digitsToNatAux_eq cs (10 * 0 + digitVal c)]
      unfold digitsToNat
      ring
    rw [h3, List.length_cons]
    calc digitVal c * 10 ^ cs.length + digitsToNat cs
        < digitVal c * 10 ^ cs.length + 10 ^ cs.length := by omega
      _ = (digitVal c + 1) * 10 ^ cs.length := by ring
      _ ≤ 10 * 10 ^ cs.length := Nat.mul_le_mul_right _ (by omega)
      _ = 10 ^ (cs.length + 1) := by ring

theorem fracVal_lt_one (f : Txt) (h : ∀ c ∈ f, isDigitCh c = true) :
    fracVal f < 1 := by
  unfold fracVal
  rw [div_lt_one (by positivity)]
  exact_mod_cast digitsToNat_lt f h

theorem fracVal_eq_zero (f : Txt) (h : fracVal f = 0) : digitsToNat f = 0 := by
  unfold fracVal at h
  rw [div_eq_zero_iff] at h
  rcases h with h | h
  · exact_mod_cast h
  · exact absurd h (by positivity)

theorem decBody_shape (s d f : Txt) (h : decBody s = some (d, f)) :
    (∀ c ∈ d, isDigitCh c = true) ∧ (∀ c ∈ f, isDigitCh c = true) ∧
    ¬(d = [] ∧ f = []) ∧ ((s = d ∧ f = []) ∨ s = d ++ '.' :: f) := by
  have hsplit : s.takeWhile isDigitCh ++ s.dropWhile isDigitCh = s :=
    List.takeWhile_append_dropWhile isDigitCh s
  unfold decBody at h
  split at h
  · rename_i hdrop
    split at h
    · cases h
    · rename_i hne
      rw [Option.some_inj, Prod.mk.injEq] at h
      obtain ⟨rfl, rfl⟩ := h
      refine ⟨fun c hc => List.mem_takeWhile_imp hc, by simp,
        fun hc => hne hc.1, Or.inl ⟨?_, rfl⟩⟩
      conv_lhs => rw [← hsplit]
      rw [hdrop, List.append_nil]
  · rename_i r2 hdrop
    split at h
    · rename_i hr3
      split at h
      · cases h
      · rename_i hne2
        rw [Option.some_inj, Prod.mk.injEq] at h
        obtain ⟨rfl, rfl⟩ := h
        refine ⟨fun c hc => List.mem_takeWhile_imp hc,
          fun c hc => List.mem_takeWhile_imp hc, hne2, Or.inr ?_⟩
        have hr2 : r2.takeWhile isDigitCh = r2 := by
          have h4 := List.takeWhile_append_dropWhile isDigitCh r2
          rw [hr3, List.append_nil] at h4
          exact h4
        rw [hr2]
        conv_lhs => rw [← hsplit]
        rw [hdrop]
    · cases h
  · cases h

theorem decSplit_shape (s : Txt) (b : Bool) (d f : Txt)
    (h : decSplit s = some (b, d, f)) :
    (∀ c ∈ d, isDigitCh c = true) ∧ (∀ c ∈ f, isDigitCh c = true) ∧
    ¬(d = [] ∧ f = []) ∧
    ∃ sgn : Txt, (sgn = [] ∨ sgn = ['+'] ∨ sgn = ['-']) ∧
      ((s = sgn ++ d ∧ f = []) ∨ s = sgn ++ (d ++ '.' :: f)) := by
  unfold decSplit at h
  split at h
  · rename_i rest
    cases hb : decBody rest with
    | none => rw [hb] at h; cases h
    | some p =>
      obtain ⟨d0, f0⟩ := p
      rw [hb, Option.map_some'] at h
      rw [Option.some_inj] at h
      simp only [Prod.mk.injEq] at h
      obtain ⟨hb2, hd2, hf2⟩ := h
      subst hb2
      rw [hd2, hf2] at hb
      obtain ⟨hd, hf, hne, hshape⟩ := decBody_shape rest d f hb
      refine ⟨hd, hf, hne, ['-'], Or.inr (Or.inr rfl), ?_⟩
      rcases hshape with ⟨h1, h2⟩ | h1
      · exact Or.inl ⟨by rw [h1]; rfl, h2⟩
      · exact Or.inr (by rw [h1]; rfl)
  · rename_i rest
    cases hb : decBody rest with
    | none => rw [hb] at h; cases h
    | some p =>
      obtain ⟨d0, f0⟩ := p
      rw [hb, Option.map_some'] at h
      rw [Option.some_inj] at h
      simp only [Prod.mk.injEq] at h
      obtain ⟨hb2, hd2, hf2⟩ := h
      subst hb2
      rw [hd2, hf2] at hb
      obtain ⟨hd, hf, hne, hshape⟩ := decBody_shape rest d f hb
      refine ⟨hd, hf, hne, ['+'], Or.inr (Or.inl rfl), ?_⟩
      rcases hshape with ⟨h1, h2⟩ | h1
      · exact Or.inl ⟨by rw [h1]; rfl, h2⟩
      · exact Or.inr (by rw [h1]; rfl)
  · cases hb : decBody s with
    | none => rw [hb] at h; cases h
    | some p =>
      obtain ⟨d0, f0⟩ := p
      rw [hb, Option.map_some'] at h
      rw [Option.some_inj] at h
      simp only [Prod.mk.injEq] at h
      obtain ⟨hb2, hd2, hf2⟩ := h
      subst hb2
      rw [hd2, hf2] at hb
      obtain ⟨hd, hf, hne, hshape⟩ := decBody_shape s d f hb
      refine ⟨hd, hf, hne, [], Or.inl rfl, ?_⟩
      rcases hshape with ⟨h1, h2⟩ | h1
      · exact Or.inl ⟨by rw [List.nil_append]; exact h1, h2⟩
      · exact Or.inr (by rw [List.nil_append]; exact h1)

theorem decSplit_chars (s : Txt) (b : Bool) (d f : Txt)
    (h : decSplit s = some (b, d, f)) :
    ∀ c ∈ s, c = '-' ∨ c = '+' ∨ c = '.' ∨ isDigitCh c = true := by
  obtain ⟨hd, hf, _, sgn, hsgn, hshape⟩ := decSplit_shape s b d f h
  intro c hc
  have hsgnc : c ∈ sgn → c = '-' ∨ c = '+' ∨ c = '.' ∨ isDigitCh c = true := by
    intro hcs
    rcases hsgn with rfl | rfl | rfl
    · cases hcs
    · rcases List.mem_singleton.mp hcs with rfl
      exact Or.inr (Or.inl rfl)
    · rcases List.mem_singleton.mp hcs with rfl
      exact Or.inl rfl
  rcases hshape with ⟨h1, _⟩ | h1
  · rw [h1] at hc
    rcases List.mem_append.mp hc with hc | hc
    · exact hsgnc hc
    · exact Or.inr (Or.inr (Or.inr (hd c hc)))
  · rw [h1] at hc
    rcases List.mem_append.mp hc with hc | hc
    · exact hsgnc hc
    · rcases List.mem_append.mp hc with hc | hc
      · exact Or.inr (Or.inr (Or.inr (hd c hc)))
      · rcases List.mem_cons.mp hc with rfl | hc
        · exact Or.inr (Or.inr (Or.inl rfl))
        · exact Or.inr (Or.inr (Or.inr (hf c hc)))

theorem decSplit_ne_nil (s : Txt) (b : Bool) (d f : Txt)
    (h : decSplit s = some (b, d, f)) : s ≠ [] := by
  intro he
  subst he
  simp [decSplit, decBody] at h

theorem decSplit_head (s : Txt) (b : Bool) (d f : Txt)
    (h : decSplit s = some (b, d, f)) :
    ∃ c t, s = c :: t ∧ (c = '-' ∨ c = '+' ∨ c = '.' ∨ isDigitCh c = true) := by
  have hne := decSplit_ne_nil s b d f h
  obtain ⟨c, t, hct⟩ := List.exists_cons_of_ne_nil hne
  refine ⟨c, t, hct, decSplit_chars s b d f h c ?_⟩
  rw [hct]
  exact List.mem_cons_self _ _

theorem decSplit_ne_nA (s : Txt) (b : Bool) (d f : Txt)
    (h : decSplit s = some (b, d, f)) : s ≠ nA := by
  intro he
  have hch := decSplit_chars s b d f h
  rw [he] at hch
  have h2 := hch 'N' (by decide)
  rcases h2 with h2 | h2 | h2 | h2 <;> exact absurd h2 (by decide)

theorem allowed_not_space (c : Char)
    (h : c = '-' ∨ c = '+' ∨ c = '.' ∨ isDigitCh c = true) :
    isSpaceCh c = false := by
  rcases h with rfl | rfl | rfl | h
  · decide
  · decide
  · decide
  · have h2 := (isDigitCh_iff c).mp h
    simp only [isSpaceCh, Bool.or_eq_false_iff, beq_eq_false_iff_ne]
    omega

theorem allowed_ne (c k : Char)
    (h : c = '-' ∨ c = '+' ∨ c = '.' ∨ isDigitCh c = true)
    (hk : 58 ≤ k.toNat ∨ k.toNat = 44 ∨ k.toNat = 36 ∨ k.toNat = 47) :
    c ≠ k := by
  intro he
  rw [← he] at hk
  rcases h with rfl | rfl | rfl | h
  · exact absurd hk (by decide)
  · exact absurd hk (by decide)
  · exact absurd hk (by decide)
  · have h2 := (isDigitCh_iff c).mp h
    omega

theorem dropWhile_eq_self_of_all (p : α → Bool) (l : List α)
    (h : ∀ c ∈ l, p c = false) : l.dropWhile p = l := by
  cases l with
  | nil => rfl
  | cons a t =>
    rw [List.dropWhile_cons, if_neg]
    simp [h a (List.mem_cons_self a t)]

theorem trim_eq_self (s : Txt) (h : ∀ c ∈ s, isSpaceCh c = false) :
    trim s = s := by
  unfold trim
  rw [dropWhile_eq_self_of_all _ _ h,
    dropWhile_eq_self_of_all _ _ (fun c hc => h c (List.mem_reverse.mp hc)),
    List.reverse_reverse]

theorem lastIs_false_of_chars (s : Txt) (k : Char)
    (hk : ∀ c ∈ s, c ≠ k) : lastIs s k = false := by
  unfold lastIs
  cases hl : s.getLast? with
  | none => rfl
  | some c =>
    have hck : c ≠ k := hk c (List.mem_of_getLast?_eq_some hl)
    rw [beq_eq_false_iff_ne]
    intro hco
    exact hck (Option.some_inj.mp hco)

theorem dropWhile_eq_nil_of_all (p : α → Bool) (l : List α)
    (h : ∀ c ∈ l, p c = true) : l.dropWhile p = [] := by
  have h2 := List.takeWhile_append_dropWhile p l
  rw [List.takeWhile_eq_self_iff.mpr h] at h2
  have h3 : l ++ l.dropWhile p = l ++ [] := by rw [List.append_nil]; exact h2
  exact List.append_cancel_left h3

theorem parse_currency_decimal (s : Txt) (r : ℚ)
    (h : parseDecimal s = some r) :
    parse_currency (PyVal.str s) = some r := by
  cases hsp : decSplit s with
  | none => rw [parseDecimal, hsp] at h; cases h
  | some t =>
    obtain ⟨b, d, f⟩ := t
    have hchars := decSplit_chars s b d f hsp
    have hnil := decSplit_ne_nil s b d f hsp
    have hnA := decSplit_ne_nA s b d f hsp
    have htrim : trim s = s :=
      trim_eq_self s (fun c hc => allowed_not_space c (hchars c hc))
    have hcomma : stripCommas s = s := by
      unfold stripCommas
      rw [List.filter_eq_self]
      intro a ha
      have han : a ≠ ',' := allowed_ne a ',' (hchars a ha) (by decide)
      simp [han]
    have hdollar : stripDollar s = s := by
      unfold stripDollar
      rw [List.filter_eq_self]
      intro a ha
      have han : a ≠ '$' := allowed_ne a '$' (hchars a ha) (by decide)
      simp [han]
    have hM : lastIs s 'M' = false :=
      lastIs_false_of_chars s 'M'
        (fun c hc => allowed_ne c 'M' (hchars c hc) (by decide))
    have hK : lastIs s 'K' = false :=
      lastIs_false_of_chars s 'K'
        (fun c hc => allowed_ne c 'K' (hchars c hc) (by decide))
    have hmult : currencyMult s = (1, s) := by
      unfold currencyMult
      rw [hM, hK]
      simp
    simp only [parse_currency, if_neg (not_or.mpr ⟨hnil, hnA⟩)]
    rw [htrim, hcomma, hmult]
    simp only [hdollar, h, mul_one]

theorem matchFraction_no_token (s : Txt)
    (h : s.takeWhile isDigitCh = []) : matchFraction s = none := by
  unfold matchFraction matchNumToken
  simp [h]

theorem matchFraction_eq_none_of_rest (s : Txt) (q : ℚ) (rest : Txt)
    (hm : matchNumToken s = some (q, rest)) (hr : ∀ r2, rest ≠ '/' :: r2) :
    matchFraction s = none := by
  unfold matchFraction
  rw [hm]
  cases rest with
  | nil => rfl
  | cons a t =>
    split
    · rfl
    · rename_i o den snd heq
      rw [Option.some_inj, Prod.mk.injEq] at heq
      obtain ⟨rfl, rfl⟩ := heq
      split
      · rename_i r2 heq2
        rw [List.cons.injEq] at heq2
        exact absurd (by rw [heq2.1, heq2.2]) (hr r2)
      · rfl

theorem matchNumToken_digits_only (d : Txt) (hdne : d ≠ [])
    (hd : ∀ c ∈ d, isDigitCh c = true) :
    matchNumToken d = some ((digitsToNat d : ℚ), []) := by
  unfold matchNumToken
  rw [List.takeWhile_eq_self_iff.mpr hd, dropWhile_eq_nil_of_all _ _ hd,
    if_neg hdne]

theorem matchNumToken_digits_dot_nil (d : Txt) (hdne : d ≠ [])
    (hd : ∀ c ∈ d, isDigitCh c = true) :
    matchNumToken (d ++ ['.']) = some ((digitsToNat d : ℚ), ['.']) := by
  have h1 : (['.'] : Txt).takeWhile isDigitCh = [] := by
    rw [List.takeWhile_cons, if_neg (by decide)]
  have h2 : (['.'] : Txt).dropWhile isDigitCh = ['.'] := by
    rw [List.dropWhile_cons, if_neg (by decide)]
  unfold matchNumToken
  rw [List.takeWhile_append_of_pos hd, List.dropWhile_append_of_pos hd,
    h1, h2, List.append_nil, if_neg hdne]
  rfl

theorem matchNumToken_digits_dot (d f : Txt) (hdne : d ≠ [])
    (hd : ∀ c ∈ d, isDigitCh c = true) (hf : ∀ c ∈ f, isDigitCh c = true)
    (hfe : f ≠ []) :
    matchNumToken (d ++ '.' :: f)
      = some ((digitsToNat d : ℚ) + fracVal f, []) := by
  have h1 : ('.' :: f).takeWhile isDigitCh = [] := by
    rw [List.takeWhile_cons, if_neg (by decide)]
  have h2 : ('.' :: f).dropWhile isDigitCh = '.' :: f := by
    rw [List.dropWhile_cons, if_neg (by decide)]
  have hft : f.takeWhile isDigitCh = f := List.takeWhile_eq_self_iff.mpr hf
  have hfd : f.dropWhile isDigitCh = [] := dropWhile_eq_nil_of_all _ _ hf
  unfold matchNumToken
  rw [List.takeWhile_append_of_pos hd, List.dropWhile_append_of_pos hd,
    h1, h2, List.append_nil, if_neg hdne]
  show (if f.takeWhile isDigitCh = []
      then some ((digitsToNat d : ℚ), '.' :: f)
      else some ((digitsToNat d : ℚ) + fracVal (f.takeWhile isDigitCh),
        f.dropWhile isDigitCh))
    = some ((digitsToNat d : ℚ) + fracVal f, [])
  rw [hft, hfd, if_neg hfe]

theorem matchFraction_decimal (s : Txt) (b : Bool) (d f : Txt)
    (hsp : decSplit s = some (b, d, f)) : matchFraction s = none := by
  obtain ⟨hd, hf, hne, sgn, hsgn, hshape⟩ := decSplit_shape s b d f hsp
  have hdotf : ('.' :: f).takeWhile isDigitCh = [] := by
    rw [List.takeWhile_cons, if_neg (by decide)]
  have hsgncase : sgn = ['+'] ∨ sgn = ['-'] → matchFraction s = none := by
    intro hpm
    apply matchFraction_no_token
    have hrest : ∃ rest : Txt, s = sgn ++ rest := by
      rcases hshape with ⟨h1, _⟩ | h1
      · exact ⟨d, h1⟩
      · exact ⟨d ++ '.' :: f, h1⟩
    obtain ⟨rest, hrest⟩ := hrest
    rcases hpm with rfl | rfl
    · rw [hrest, List.singleton_append, List.takeWhile_cons,
        if_neg (by decide)]
    · rw [hrest, List.singleton_append, List.takeWhile_cons,
        if_neg (by decide)]
  rcases hsgn with rfl | hpm
  · by_cases hdne : d = []
    · rcases hshape with ⟨h1, h2⟩ | h1
      · exact absurd ⟨hdne, h2⟩ hne
      · apply matchFraction_no_token
        rw [h1, List.nil_append, hdne, List.nil_append]
        exact hdotf
    · rcases hshape with ⟨h1, h2⟩ | h1
      · rw [List.nil_append] at h1
        rw [h1]
        exact matchFraction_eq_none_of_rest d _ []
          (matchNumToken_digits_only d hdne hd)
          (fun r2 hcon => by cases hcon)
      · rw [List.nil_append] at h1
        rw [h1]
        by_cases hfe : f = []
        · rw [hfe]
          exact matchFraction_eq_none_of_rest (d ++ '.' :: []) _ ['.']
            (matchNumToken_digits_dot_nil d hdne hd)
            (fun r2 hcon => by cases hcon)
        · exact matchFraction_eq_none_of_rest (d ++ '.' :: f) _ []
            (matchNumToken_digits_dot d f hdne hd hf hfe)
            (fun r2 hcon => by cases hcon)
  · exact hsgncase hpm

theorem lookupGrade_decimal (s : Txt) (c : Char) (t : Txt) (hs : s = c :: t)
    (hc : c = '-' ∨ c = '+' ∨ c = '.' ∨ isDigitCh c = true) :
    lookupGrade s = none := by
  unfold lookupGrade
  rw [Option.map_eq_none', List.find?_eq_none]
  intro p hp
  unfold GRADE_MAP at hp
  simp only [List.mem_cons, List.not_mem_nil, or_false] at hp
  have hone : ∀ k : Char, ∀ rest : Txt, p.1 = k :: rest → 58 ≤ k.toNat →
      ¬(p.1 == s) = true := by
    intro k rest hk h58 hbeq
    rw [beq_iff_eq, hk, hs, List.cons.injEq] at hbeq
    exact absurd hbeq.1.symm (allowed_ne c k hc (Or.inl h58))
  rcases hp with rfl | rfl | rfl | rfl | rfl | rfl | rfl | rfl | rfl | rfl |
    rfl | rfl | rfl
  · exact hone 'A' _ rfl (by decide)
  · exact hone 'A' _ rfl (by decide)
  · exact hone 'A' _ rfl (by decide)
  · exact hone 'B' _ rfl (by decide)
  · exact hone 'B' _ rfl (by decide)
  · exact hone 'B' _ rfl (by decide)
  · exact hone 'C' _ rfl (by decide)
  · exact hone 'C' _ rfl (by decide)
  · exact hone 'C' _ rfl (by decide)
  · exact hone 'D' _ rfl (by decide)
  · exact hone 'D' _ rfl (by decide)
  · exact hone 'D' _ rfl (by decide)
  · exact hone 'F' _ rfl (by decide)

theorem review_score_decimal (s : Txt) (r : ℚ)
    (h : parseDecimal s = some r) :
    normalize_review_score (some s) = some r := by
  cases hsp : decSplit s with
  | none => rw [parseDecimal, hsp] at h; cases h
  | some t =>
    obtain ⟨b, d, f⟩ := t
    have hchars := decSplit_chars s b d f hsp
    have hnil := decSplit_ne_nil s b d f hsp
    have hnA := decSplit_ne_nA s b d f hsp
    have htrim : trim s = s :=
      trim_eq_self s (fun c hc => allowed_not_space c (hchars c hc))
    have hfrac := matchFraction_decimal s b d f hsp
    obtain ⟨c, t2, hct, hc⟩ := decSplit_head s b d f hsp
    have hgrade := lookupGrade_decimal s c t2 hct hc
    simp only [normalize_review_score, htrim,
      if_neg (not_or.mpr ⟨hnil, hnA⟩), hfrac, hgrade]
    exact h

theorem firstDigitRun_cons_false (c : Char) (t : Txt)
    (h : isDigitCh c = false) : firstDigitRun (c :: t) = firstDigitRun t := by
  show (if isDigitCh c = true then some (c :: t.takeWhile isDigitCh)
    else firstDigitRun t) = firstDigitRun t
  rw [if_neg (by simp [h])]

theorem firstDigitRun_sgn (sgn rest : Txt)
    (hsgn : sgn = [] ∨ sgn = ['+'] ∨ sgn = ['-']) :
    firstDigitRun (sgn ++ rest) = firstDigitRun rest := by
  rcases hsgn with rfl | rfl | rfl
  · rfl
  · exact firstDigitRun_cons_false '+' rest (by decide)
  · exact firstDigitRun_cons_false '-' rest (by decide)

theorem firstDigitRun_run (d t : Txt) (hdne : d ≠ [])
    (hd : ∀ c ∈ d, isDigitCh c = true) (ht : t.takeWhile isDigitCh = []) :
    firstDigitRun (d ++ t) = some d := by
  cases d with
  | nil => exact absurd rfl hdne
  | cons c d2 =>
    show firstDigitRun (c :: (d2 ++ t)) = some (c :: d2)
    unfold firstDigitRun
    rw [if_pos (hd c (List.mem_cons_self _ _)),
      List.takeWhile_append_of_pos (fun a ha => hd a (List.mem_cons_of_mem _ ha)),
      ht, List.append_nil]

theorem decValue_nat (b : Bool) (d f : Txt) (n : ℕ)
    (hf : ∀ c ∈ f, isDigitCh c = true)
    (hv : decValue b d f = (n : ℚ)) :
    digitsToNat d = n ∧ digitsToNat f = 0 := by
  have hF0 : 0 ≤ fracVal f := fracVal_nonneg f
  have hF1 : fracVal f < 1 := fracVal_lt_one f hf
  have hD0 : (0 : ℚ) ≤ (digitsToNat d : ℚ) := Nat.cast_nonneg _
  have hn0 : (0 : ℚ) ≤ (n : ℚ) := Nat.cast_nonneg _
  unfold decValue at hv
  cases b with
  | true =>
    rw [if_pos rfl] at hv
    have h4 : (digitsToNat d : ℚ) + fracVal f = 0 := by linarith
    have h5 : (digitsToNat d : ℚ) = 0 := by linarith
    have h6 : fracVal f = 0 := by linarith
    have hn : (n : ℚ) = 0 := by linarith
    constructor
    · have hdz : digitsToNat d = 0 := by exact_mod_cast h5
      have hnz : n = 0 := by exact_mod_cast hn
      rw [hdz, hnz]
    · exact fracVal_eq_zero f h6
  | false =>
    rw [if_neg (by decide)] at hv
    have hDn : (digitsToNat d : ℚ) ≤ (n : ℚ) := by linarith
    have hnD : (n : ℚ) < (digitsToNat d : ℚ) + 1 := by linarith
    have h1 : digitsToNat d ≤ n := by exact_mod_cast hDn
    have h2 : n < digitsToNat d + 1 := by exact_mod_cast hnD
    have hDeq : digitsToNat d = n := by omega
    have hFeq : fracVal f = 0 := by
      have h3 : (digitsToNat d : ℚ) = (n : ℚ) := by exact_mod_cast hDeq
      linarith
    exact ⟨hDeq, fracVal_eq_zero f hFeq⟩

theorem parse_runtime_decimal (s2 : Txt) (n : ℕ)
    (h : parseDecimal s2 = some ((n : ℚ))) :
    parse_runtime (PyVal.str s2) = some ((n : ℚ)) := by
  cases hsp : decSplit s2 with
  | none => rw [parseDecimal, hsp] at h; cases h
  | some tr =>
    obtain ⟨b, d, f⟩ := tr
    have hval : decValue b d f = (n : ℚ) := by
      rw [parseDecimal, hsp, Option.map_some', Option.some_inj] at h
      exact h
    obtain ⟨hd, hf, hne, sgn, hsgn, hshape⟩ := decSplit_shape s2 b d f hsp
    obtain ⟨hDn, hF0⟩ := decValue_nat b d f n hf hval
    have hnil := decSplit_ne_nil s2 b d f hsp
    have hnA := decSplit_ne_nA s2 b d f hsp
    have hdot : ('.' :: f).takeWhile isDigitCh = [] := by
      rw [List.takeWhile_cons, if_neg (by decide)]
    have hrun : ∃ dr, firstDigitRun s2 = some dr ∧ digitsToNat dr = n := by
      by_cases hdne : d = []
      · have hn0 : n = 0 := by
          rw [hdne] at hDn
          exact hDn.symm ▸ rfl
        rcases hshape with ⟨h1, h2⟩ | h1
        · exact absurd ⟨hdne, h2⟩ hne
        · have hfne : f ≠ [] := fun hff => hne ⟨hdne, hff⟩
          refine ⟨f, ?_, by rw [hF0, hn0]⟩
          rw [h1, firstDigitRun_sgn sgn _ hsgn, hdne, List.nil_append,
            firstDigitRun_cons_false '.' f (by decide)]
          have h3 := firstDigitRun_run f [] hfne hf rfl
          rwa [List.append_nil] at h3
      · refine ⟨d, ?_, hDn⟩
        rcases hshape with ⟨h1, h2⟩ | h1
        · rw [h1, firstDigitRun_sgn sgn _ hsgn]
          have h3 := firstDigitRun_run d [] hdne hd rfl
          rwa [List.append_nil] at h3
        · rw [h1, firstDigitRun_sgn sgn _ hsgn]
          exact firstDigitRun_run d ('.' :: f) hdne hd hdot
    obtain ⟨dr, hdr, hdrn⟩ := hrun
    show (if s2 = [] ∨ s2 = nA then (none : Option ℚ)
      else match firstDigitRun s2 with
        | some d => some ((digitsToNat d : ℚ))
        | none => none) = some ((n : ℚ))
    rw [if_neg (not_or.mpr ⟨hnil, hnA⟩), hdr]
    show some ((digitsToNat dr : ℚ)) = some ((n : ℚ))
    rw [hdrn]

theorem parse_runtime_str_nat (s : Txt) (r : ℚ)
    (h : parse_runtime (PyVal.str s) = some r) : ∃ n : ℕ, r = (n : ℚ) := by
  have h2 : (if s = [] ∨ s = nA then (none : Option ℚ)
      else match firstDigitRun s with
        | some d => some ((digitsToNat d : ℚ))
        | none => none) = some r := h
  split at h2
  · cases h2
  · split at h2
    · rename_i dr hdr
      rw [Option.some_inj] at h2
      exact ⟨digitsToNat dr, h2.symm⟩
    · cases h2

/-! Claim theorems. -/

/-- Claim C1: in the output Film table built by the reconciliation
engine, `film_id` is unique — the list of `film_id` values of
`build_films_table` has no duplicate, for every pair of input row sets,
so a key arising from both sources yields one output row, never two. -/
theorem film_id_unique (rts : List RTRow) (imdbs : List IMDBRow) :
    ((build_films_table rts imdbs).map Film.film_id).Nodup := by
  unfold build_films_table dropDuplicatesBy
  exact (dropDupAux_spec Film.film_id _ _).1

/-- Claim C2: the pandas path computes `revenue_per_minute` as an
unguarded float division, so a merged row with non-null box office 100
and runtime 0 yields positive infinity — a non-null, infinite value —
where the claim demands null; the Spark path yields null on the same
operands.  This exhibits the failing input of the recorded code bug. -/
theorem revenue_per_minute_division_unguarded :
    revenue_per_minute_pandas (some 100) (some 0) = PFloat.pinf
    ∧ (mergeRow none (some imdbRowDivZero)).revenue_per_minute = PFloat.pinf
    ∧ revenue_per_minute_pandas (some 100) (some 0) ≠ PFloat.nan
    ∧ revenue_per_minute_spark (some 100) (some 0) = none := by decide

/-- Claim C3, counterexample: a ledger holding only a failed record for
a pair makes `already_ingested` answer true, though no record with
status "completed" exists for that pair — refuting the claimed
equivalence at this ledger state. -/
theorem already_ingested_status_counterexample :
    already_ingested cexLedgerFailed ("rt_movies") cexContent = true
    ∧ ¬ ∃ r ∈ cexLedgerFailed, r.source = ("rt_movies")
        ∧ r.content_hash = cexContent ∧ r.status = ("completed") := by
  constructor
  · decide
  · intro ⟨r, hr, _, _, hst⟩
    rcases List.mem_singleton.mp hr with rfl
    exact absurd hst (by decide)

/-- Claim C3, amended: `already_ingested source digest` is true iff the
ledger holds a prior record for exactly that (source, digest) pair —
of any status; the status field is not consulted. -/
theorem already_ingested_pair_exists (ledger : List MetadataRecord)
    (source : String) (h : Digest) :
    already_ingested ledger source h = true ↔
      ∃ r ∈ ledger, r.source = source ∧ r.content_hash = h :=
  already_ingested_iff ledger source h

/-- Claim C4, counterexample: ingesting the same content twice for the
same source yields a completed and then a skipped result, but the final
ledger holds exactly one entry and no entry with status "skipped" — the
skipped attempt is not ledger-recorded, against the claim's statement
that entries are recorded for every attempt that produced or skipped a
copy. -/
theorem skipped_attempt_not_ledger_recorded :
    cexRun1.1.status = ("completed")
    ∧ cexRun2.1.status = ("skipped")
    ∧ cexRun2.2.ledger.length = 1
    ∧ (cexRun2.2.ledger.filter (fun r => r.status == ("skipped"))) = [] := by
  decide

/-- Claim C4, amended: from a fresh state, ingesting the same content
twice yields one completed and one skipped result and ingesting a
byte-modified file yields a second completed result; only the completed
attempts are appended to the ledger — the skipped attempt is returned
to the caller without a ledger write, so the final ledger holds exactly
the two completed records. -/
theorem ledger_idempotence_amended (name fn : String)
    (c c2 : FileContent) (hne : c ≠ c2) :
    (ingestTwiceThenModified name fn c c2).1.status = ("completed")
    ∧ (ingestTwiceThenModified name fn c c2).2.1.status = ("skipped")
    ∧ (ingestTwiceThenModified name fn c c2).2.2.1.status = ("completed")
    ∧ (ingestTwiceThenModified name fn c c2).2.2.2.ledger.map
        MetadataRecord.status = [("completed"), ("completed")] := by
  have hbeq : (c == c2) = false := beq_eq_false_iff_ne.mpr hne
  simp [ingestTwiceThenModified, csvCfg, run_for_source, ingest_csv,
    already_ingested, build_metadata_record, compute_sha256,
    IngestOutcome.status, List.filter_cons, hbeq]

/-- Claim C4, witness: the amended scenario at a concrete source and two
concrete contents differing in one byte. -/
theorem ledger_idempotence_amended_witness :
    (ingestTwiceThenModified ("rt_movies") ("f.csv") [['a']] [['b']]).1.status
        = ("completed")
    ∧ (ingestTwiceThenModified ("rt_movies") ("f.csv")
        [['a']] [['b']]).2.1.status = ("skipped")
    ∧ (ingestTwiceThenModified ("rt_movies") ("f.csv")
        [['a']] [['b']]).2.2.1.status = ("completed")
    ∧ (ingestTwiceThenModified ("rt_movies") ("f.csv")
        [['a']] [['b']]).2.2.2.ledger.map MetadataRecord.status
        = [("completed"), ("completed")] :=
  ledger_idempotence_amended ("rt_movies") ("f.csv") [['a']] [['b']]
    (by decide)

/-- Claim C5: when the ledger holds a prior completed record for a
(source, content hash) pair, re-ingesting that content is a pure skip:
both loaders return a skipped result and the state — run-versioned
store included — is returned unchanged, and `run_for_source` leaves the
whole state (ledger and store) untouched whatever the source kind. -/
theorem no_second_copy_after_completed (cfg : SourceConfig)
    (c : FileContent) (runId now : String) (st : IngestState)
    (h : ∃ r ∈ st.ledger, r.source = cfg.name
        ∧ r.content_hash = compute_sha256 c ∧ r.status = ("completed")) :
    ingest_csv cfg (some c) runId now st
      = Except.ok (IngestOutcome.skipped cfg.name skipReason
          (compute_sha256 c), st)
    ∧ (∀ did, cfg.dataset_id = some did →
        ingest_kaggle cfg (some c) runId now st
          = Except.ok (IngestOutcome.skipped cfg.name skipReason
              (compute_sha256 c), st))
    ∧ (run_for_source cfg (some c) runId now st).2 = st := by
  have hai : already_ingested st.ledger cfg.name (compute_sha256 c) = true := by
    obtain ⟨r, hr, h1, h2, _⟩ := h
    exact (already_ingested_iff _ _ _).mpr ⟨r, hr, h1, h2⟩
  refine ⟨?_, ?_, ?_⟩
  · simp [ingest_csv, hai]
  · intro did hdid
    simp [ingest_kaggle, hdid, hai]
  · cases hk : cfg.kind
    · simp [run_for_source, hk, ingest_csv, hai]
    · cases hd : cfg.dataset_id
      · simp [run_for_source, hk, ingest_kaggle, hd]
      · simp [run_for_source, hk, ingest_kaggle, hd, hai]

/-- Claim C5, witness: a state whose ledger holds a completed record for
the pair, at a concrete configuration and content. -/
theorem no_second_copy_after_completed_witness :
    ingest_csv cexKaggleCfg (some cexContent) ("r9") ("t9")
        { ledger := cexLedgerDone, store := [] }
      = Except.ok (IngestOutcome.skipped cexKaggleCfg.name skipReason
          (compute_sha256 cexContent),
          { ledger := cexLedgerDone, store := [] })
    ∧ (∀ did, cexKaggleCfg.dataset_id = some did →
        ingest_kaggle cexKaggleCfg (some cexContent) ("r9") ("t9")
            { ledger := cexLedgerDone, store := [] }
          = Except.ok (IngestOutcome.skipped cexKaggleCfg.name skipReason
              (compute_sha256 cexContent),
              { ledger := cexLedgerDone, store := [] }))
    ∧ (run_for_source cexKaggleCfg (some cexContent) ("r9") ("t9")
        { ledger := cexLedgerDone, store := [] }).2
        = { ledger := cexLedgerDone, store := [] } :=
  no_second_copy_after_completed cexKaggleCfg cexContent ("r9") ("t9")
    { ledger := cexLedgerDone, store := [] }
    ⟨{ run_id := ("r0"), source := ("rt_movies"), status := ("completed"),
       content_hash := cexContent, row_count := 1, byte_size := 1,
       raw_path := ("p"), created_at := ("t0") }, by decide, by decide,
       by decide, by decide⟩

/-- Claim C10: `count_lines` answers L - 1 for a file of L lines, L at
least 1, and 0 for an empty file; hence the row count in a completed
record of `ingest_csv` — line count minus one more for the header — is
D - 1 for a file of one header line and D data lines, and -1 for an
empty file, and the success marker in the stored run carries the same
value. -/
theorem count_lines_off_by_one (file header : Txt) (rest data : List Txt)
    (cfg : SourceConfig) (runId now : String) (st : IngestState) :
    (1 ≤ (file :: rest).length →
      count_lines (file :: rest) = ((file :: rest).length : Int) - 1)
    ∧ count_lines ([] : FileContent) = 0
    ∧ (already_ingested st.ledger cfg.name
          (compute_sha256 (header :: data)) = false →
        ∃ rec st2,
          ingest_csv cfg (some (header :: data)) runId now st
            = Except.ok (IngestOutcome.completed rec, st2)
          ∧ rec.row_count = (data.length : Int) - 1
          ∧ st2.store.map (fun sr => sr.marker.rows)
            = st.store.map (fun sr => sr.marker.rows)
              ++ [(data.length : Int) - 1])
    ∧ (already_ingested st.ledger cfg.name (compute_sha256 []) = false →
        ∃ rec st2,
          ingest_csv cfg (some ([] : FileContent)) runId now st
            = Except.ok (IngestOutcome.completed rec, st2)
          ∧ rec.row_count = -1) := by
  refine ⟨?_, by decide, ?_, ?_⟩
  · intro _
    rw [count_lines_cons]
    simp only [List.length_cons]
    push_cast
    omega
  · intro hai
    refine ⟨build_metadata_record runId cfg.name ("completed")
        (compute_sha256 (header :: data))
        (count_lines (header :: data) - 1)
        (byteSize (header :: data)) (rawPathOf cfg runId) now,
      { ledger := st.ledger
        store := st.store ++
          [{ source := cfg.name
             run_id := runId
             file_name := cfg.file_name
             content := header :: data
             marker :=
               { source := cfg.name
                 dataset := none
                 file := cfg.file_name
                 rows := count_lines (header :: data) - 1
                 hash := compute_sha256 (header :: data) } }] }, ?_, ?_, ?_⟩
    · simp [ingest_csv, hai]
    · show count_lines (header :: data) - 1 = (data.length : Int) - 1
      rw [count_lines_cons]
    · simp only [List.map_append, List.map_cons, List.map_nil]
      rw [count_lines_cons]
  · intro hai
    refine ⟨build_metadata_record runId cfg.name ("completed")
        (compute_sha256 []) (count_lines [] - 1) (byteSize [])
        (rawPathOf cfg runId) now,
      { ledger := st.ledger
        store := st.store ++
          [{ source := cfg.name
             run_id := runId
             file_name := cfg.file_name
             content := []
             marker :=
               { source := cfg.name
                 dataset := none
                 file := cfg.file_name
                 rows := count_lines [] - 1
                 hash := compute_sha256 [] } }] }, ?_, ?_⟩
    · simp [ingest_csv, hai]
    · show count_lines [] - 1 = -1
      decide

/-- Claim C10, witness: a three-line file, a header with two data lines,
and the empty file, from a fresh state. -/
theorem count_lines_off_by_one_witness :
    (1 ≤ ([['x'], ['a'], ['b']] : FileContent).length →
      count_lines [['x'], ['a'], ['b']]
        = (([['x'], ['a'], ['b']] : FileContent).length : Int) - 1)
    ∧ count_lines ([] : FileContent) = 0
    ∧ (already_ingested ([] : List MetadataRecord) cexCfg.name
          (compute_sha256 ([['x']] : FileContent)) = false →
        ∃ rec st2,
          ingest_csv cexCfg (some ([['x']] : FileContent)) ("r1") ("t1")
              { ledger := [], store := [] }
            = Except.ok (IngestOutcome.completed rec, st2)
          ∧ rec.row_count = (([] : List Txt).length : Int) - 1
          ∧ st2.store.map (fun sr => sr.marker.rows)
            = ({ ledger := [], store := [] } :
                IngestState).store.map (fun sr => sr.marker.rows)
              ++ [(([] : List Txt).length : Int) - 1])
    ∧ (already_ingested ([] : List MetadataRecord) cexCfg.name
          (compute_sha256 []) = false →
        ∃ rec st2,
          ingest_csv cexCfg (some ([] : FileContent)) ("r1") ("t1")
              { ledger := [], store := [] }
            = Except.ok (IngestOutcome.completed rec, st2)
          ∧ rec.row_count = -1) :=
  count_lines_off_by_one ['x'] ['x'] [['a'], ['b']] [] cexCfg ("r1") ("t1")
    { ledger := [], store := [] }

/-- Claim C6, counterexample: the review-score normalizer passes a bare
number through unscaled, so the input "85" yields the non-null
score_ratio 85, which lies outside the closed unit interval — refuting
the claim that every non-null score_ratio lies in 0..1. -/
theorem score_ratio_exceeds_unit_interval :
    normalize_review_score (some ['8', '5']) = some 85
    ∧ ¬ ((85 : ℚ) ≤ 1) := by
  constructor
  · decide
  · norm_num

/-- Claim C6, amended: score_ratio lies in the unit interval on letter
grades, and on fractions with numerator at most denominator it equals
num/den, is nonnegative and at most 1; bare numeric strings pass
through unscaled and may lie outside the interval. -/
theorem score_ratio_bounds_amended :
    (∀ p ∈ GRADE_MAP, normalize_review_score (some p.1) = some (p.2 / 4)
      ∧ 0 ≤ p.2 / 4 ∧ p.2 / 4 ≤ 1)
    ∧ (∀ (s : Txt) (num den : ℚ),
        matchFraction (trim s) = some (num, den) → den ≠ 0 → num ≤ den →
          normalize_review_score (some s) = some (num / den)
          ∧ 0 ≤ num / den ∧ num / den ≤ 1) := by
  constructor
  · decide
  · intro s num den hf hden hle
    obtain ⟨c, t, hct, hc⟩ := matchFraction_head (trim s) num den hf
    obtain ⟨hnum0, hden0⟩ := matchFraction_nonneg (trim s) num den hf
    have hdpos : 0 < den := lt_of_le_of_ne hden0 (Ne.symm hden)
    have hne : ¬(trim s = [] ∨ trim s = nA) := by
      rw [hct]
      rintro (h1 | h2)
      · cases h1
      · rw [nA] at h2
        rw [List.cons.injEq] at h2
        rw [h2.1] at hc
        exact absurd hc (by decide)
    refine ⟨?_, div_nonneg hnum0 hden0, (div_le_one hdpos).mpr hle⟩
    simp only [normalize_review_score, if_neg hne, hf, if_neg hden]

/-- Claim C6, witness: the grade "A-" gives 0.925 and the fraction
"7/10" gives 0.7, both inside the unit interval. -/
theorem score_ratio_bounds_amended_witness :
    (normalize_review_score (some ['A', '-']) = some ((37 : ℚ)/10 / 4)
      ∧ 0 ≤ (37 : ℚ)/10 / 4 ∧ (37 : ℚ)/10 / 4 ≤ 1)
    ∧ (normalize_review_score (some ['7', '/', '1', '0']) = some (7 / 10)
      ∧ 0 ≤ (7 : ℚ) / 10 ∧ (7 : ℚ) / 10 ≤ 1) :=
  ⟨score_ratio_bounds_amended.1 (['A', '-'], (37 : ℚ)/10) (by decide),
   score_ratio_bounds_amended.2 ['7', '/', '1', '0'] 7 10 (by decide)
     (by norm_num) (by norm_num)⟩

/-- Claim C7, counterexample: the pandas-path date normalizer
`safe_to_datetime` delegates to the coercing pandas parser with no
prefix guard: the input "01/02/2020" does not begin with the
4-digit-year pattern, is neither "N/A" nor empty, and still parses to
the non-null date 2020-01-02 — refuting the claim for this normalizer. -/
theorem pandas_date_accepts_other_formats :
    safe_to_datetime (some mdyTxt) = some ⟨2020, 1, 2⟩
    ∧ matchesDateStart mdyTxt = false
    ∧ mdyTxt ≠ [] ∧ mdyTxt ≠ nA := by
  refine ⟨by decide, by decide, by decide, by decide⟩

/-- Claim C7, amended: the Spark-path date normalizer `safe_timestamp`
obeys the claim — it produces a non-null date only when the trimmed
input begins with the 4-digit-year 2-digit-month 2-digit-day pattern
(every other input is nulled before parsing); the pandas-path
`safe_to_datetime` carries no such guard. -/
theorem safe_timestamp_date_guard (col : Option Txt)
    (h : (safe_timestamp col).isSome = true) :
    ∃ t, col = some t ∧ matchesDateStart (trim t) = true := by
  cases col with
  | none => simp [safe_timestamp, spark_to_timestamp] at h
  | some s =>
    refine ⟨s, rfl, ?_⟩
    simp only [safe_timestamp] at h
    split at h
    · simp [spark_to_timestamp] at h
    · rename_i hcond
      push_neg at hcond
      exact hcond.2.2

/-- Claim C7, witness: the ISO input "2020-01-02" parses non-null and
indeed begins with the required pattern. -/
theorem safe_timestamp_date_guard_witness :
    ∃ t, (some isoTxt : Option Txt) = some t
      ∧ matchesDateStart (trim t) = true :=
  safe_timestamp_date_guard (some isoTxt) (by decide)

/-- Claim C8: field resolution of the merge.  A film present only in
the external catalog keeps its identifier, title, runtime, box office,
year, rating, metascore and first genre token, with the
aggregator-only fields null.  When both sides are present and both
contribute non-null values, title, runtime and box office take the
external-catalog value; year is the external-catalog year, else the
year of the aggregator theatrical release date; primary genre is the
aggregator first genre token, else the external catalog first genre
token; film_id is the external identifier, else the join key. -/
theorem merge_coalesce_priorities :
    (∀ i : IMDBRow,
      (mergeRow none (some i)).film_id = fillna i.imdbID i.rt_id
      ∧ (mergeRow none (some i)).title = i.title
      ∧ (mergeRow none (some i)).runtime_minutes = i.runtime_minutes
      ∧ (mergeRow none (some i)).box_office_usd = i.box_office_usd
      ∧ (mergeRow none (some i)).year = i.year
      ∧ (mergeRow none (some i)).imdb_rating = i.imdbRating
      ∧ (mergeRow none (some i)).metascore = i.metascore
      ∧ (mergeRow none (some i)).primary_genre = firstGenreToken i.genre
      ∧ (mergeRow none (some i)).audience_score = none
      ∧ (mergeRow none (some i)).tomato_meter = none
      ∧ (mergeRow none (some i)).rt_director = none
      ∧ (mergeRow none (some i)).rt_writer = none
      ∧ (mergeRow none (some i)).rt_release_date = none)
    ∧ (∀ (rt : RTRow) (i : IMDBRow) (ti tr : Txt) (q qr b br : ℚ),
        i.title = some ti → rt.title = some tr →
        i.runtime_minutes = some q → rt.runtime_minutes = some qr →
        i.box_office_usd = some b → rt.box_office_usd = some br →
          (mergeRow (some rt) (some i)).title = some ti
          ∧ (mergeRow (some rt) (some i)).runtime_minutes = some q
          ∧ (mergeRow (some rt) (some i)).box_office_usd = some b)
    ∧ (∀ (rt : RTRow) (i : IMDBRow),
        (mergeRow (some rt) (some i)).year
          = fillna i.year
              ((rt.releaseDateTheaters).map (fun d => (d.year : ℚ)))
        ∧ (mergeRow (some rt) (some i)).primary_genre
          = fillna (firstGenreToken rt.genre) (firstGenreToken i.genre)
        ∧ (mergeRow (some rt) (some i)).film_id
          = fillna i.imdbID (fillna rt.rt_id i.rt_id)) := by
  refine ⟨?_, ?_, ?_⟩
  · intro i
    simp [mergeRow, fillna_none, fillna_none_left, firstGenreToken]
  · intro rt i ti tr q qr b br h1 h2 h3 h4 h5 h6
    simp [mergeRow, h1, h3, h5, fillna_some]
  · intro rt i
    exact ⟨rfl, rfl, rfl⟩

/-- Claim C8, witness: two fully populated rows with the same join key;
the merged title, runtime and box office are the external-catalog
values. -/
theorem merge_coalesce_priorities_witness :
    (mergeRow (some rtRowW) (some imdbRowW)).title = some ['T', 'i']
    ∧ (mergeRow (some rtRowW) (some imdbRowW)).runtime_minutes = some 112
    ∧ (mergeRow (some rtRowW) (some imdbRowW)).box_office_usd = some 9 :=
  merge_coalesce_priorities.2.1 rtRowW imdbRowW ['T', 'i'] ['T', 'r']
    112 111 9 7 rfl rfl rfl rfl rfl rfl

/-- Claim C9, counterexample: the runtime parser is not idempotent on
every input.  The numeric input 1.5 passes through unchanged, its exact
decimal re-serialization is "1.5", and re-parsing that text keeps only
the first digit run, giving 1 — a different canonical value. -/
theorem parse_runtime_reserialized_counterexample :
    parse_runtime (PyVal.num (3/2)) = some (3/2)
    ∧ parseDecimal ['1', '.', '5'] = some (3/2)
    ∧ parse_runtime (PyVal.str ['1', '.', '5']) = some 1
    ∧ ((3 : ℚ)/2) ≠ 1 := by decide

/-- Claim C9, amended: the currency parser and the review-score
normalizer are idempotent on every input — re-parsing any exact decimal
re-serialization of their output returns that output; the runtime
parser is idempotent on every textual input (its text outputs are
whole numbers of minutes, recovered exactly from any decimal
re-serialization), but a numeric input with a fractional part passes
through and is truncated to its first digit run on re-parse. -/
theorem normalizer_idempotence_amended :
    (∀ (v : PyVal) (r : ℚ) (s : Txt), parse_currency v = some r →
      parseDecimal s = some r → parse_currency (PyVal.str s) = some r)
    ∧ (∀ (v : Option Txt) (r : ℚ) (s : Txt),
      normalize_review_score v = some r →
      parseDecimal s = some r → normalize_review_score (some s) = some r)
    ∧ (∀ (s s2 : Txt) (r : ℚ), parse_runtime (PyVal.str s) = some r →
      parseDecimal s2 = some r → parse_runtime (PyVal.str s2) = some r) := by
  refine ⟨?_, ?_, ?_⟩
  · intro v r s _ hs
    exact parse_currency_decimal s r hs
  · intro v r s _ hs
    exact review_score_decimal s r hs
  · intro s s2 r hp hs
    obtain ⟨n, rfl⟩ := parse_runtime_str_nat s r hp
    exact parse_runtime_decimal s2 n hs

/-- Claim C9, witness: "$1.2M" re-serialized as "1200000.0" re-parses
to 1200000; "7/10" re-serialized as "0.7" re-parses to 7/10; "142 min"
re-serialized as "142.0" re-parses to 142. -/
theorem normalizer_idempotence_amended_witness :
    parse_currency (PyVal.str ['$', '1', '.', '2', 'M']) = some 1200000
    ∧ parse_currency
        (PyVal.str ['1', '2', '0', '0', '0', '0', '0', '.', '0'])
        = some 1200000
    ∧ normalize_review_score (some ['7', '/', '1', '0']) = some (7/10)
    ∧ normalize_review_score (some ['0', '.', '7']) = some (7/10)
    ∧ parse_runtime (PyVal.str ['1', '4', '2', ' ', 'm', 'i', 'n'])
        = some 142
    ∧ parse_runtime (PyVal.str ['1', '4', '2', '.', '0']) = some 142 :=
  ⟨by decide,
   normalizer_idempotence_amended.1 (PyVal.str ['$', '1', '.', '2', 'M'])
     1200000 ['1', '2', '0', '0', '0', '0', '0', '.', '0']
     (by decide) (by decide),
   by decide,
   normalizer_idempotence_amended.2.1 (some ['7', '/', '1', '0']) (7/10)
     ['0', '.', '7'] (by decide) (by decide),
   by decide,
   normalizer_idempotence_amended.2.2 ['1', '4', '2', ' ', 'm', 'i', 'n']
     ['1', '4', '2', '.', '0'] 142 (by decide) (by decide)⟩

end Cine
